import Mathlib

/-!
# iswhite-bench: the whitespace predicate and its benchmark harness

A shallow embedding of `src/main.cpp`.

* A `char` is one byte.  `CChar` is its object representation (0..255); the
  value it has as a C++ `char` depends on whether plain `char` is signed on the
  platform, which every definition that looks at a value takes as the
  parameter `char_signed`.
* Character literals have their ASCII codes (`' '` = 32, `'\n'` = 10,
  `'\t'` = 9, `'\r'` = 13, `'a'` = 97, `'='` = 61).
* `unsigned` is 32 bits wide.
* An expression with undefined behaviour (an out-of-range read of the
  `std::array`) has no value: the functions that can reach one return `Option`.
* Strings are finite lists of `CChar`.  The one place a generator asks for
  storage is `result.reserve(length)`; its two failures (`std::length_error`,
  `std::bad_alloc`) are modelled by `reserve`, with `std::string::max_size()`
  and the capacity the allocator can grant as parameters.  `make_random_chars`
  and `make_alternating` are the strings built once that call has succeeded;
  `make_random_chars_checked` and `make_alternating_checked` are the whole
  calls.  The random device is taken to deliver its outcomes.
-/

namespace IsWhite

set_option maxRecDepth 100000

/-- A `char` object, as its byte. -/
abbrev CChar := Fin 256

/-- The value of the `char` with byte `c`, as the `int` it promotes to: on a
platform with signed plain `char` the bytes 128..255 are the values -128..-1. -/
def char_value (char_signed : Bool) (c : CChar) : Int :=
  if char_signed && decide (128 ≤ c.val) then (c.val : Int) - 256 else (c.val : Int)

/-- Conversion `static_cast<unsigned>(c)`: the value modulo 2^32. -/
def static_cast_unsigned (v : Int) : Nat := (v % 4294967296).toNat

/-- Conversion `static_cast<unsigned char>(c)`: the value modulo 2^8. -/
def static_cast_unsigned_char (v : Int) : Nat := (v % 256).toNat

/-- Template `is_a_whitespace_char(c_int<Char>)`: the chain of `if constexpr`
tests on the template argument. -/
def is_a_whitespace_char (Char : Int) : Bool :=
  if Char == 32 then true
  else if Char == 10 then true
  else if Char == 9 then true
  else if Char == 13 then true
  else false

/-- The pack expansion `make_whitespace_flags(std::integer_sequence<int, Is...>)`:
one flag per element of the sequence, in order. -/
def make_whitespace_flags_seq (Is : List Int) : List Bool :=
  Is.map is_a_whitespace_char

/-- The sequence `std::make_integer_sequence<int, N>`: 0, 1, ..., N-1. -/
def make_integer_sequence (N : Nat) : List Int :=
  (List.range N).map Int.ofNat

/-- The table `make_whitespace_flags()`: the flags of 0..255. -/
def make_whitespace_flags : List Bool :=
  make_whitespace_flags_seq (make_integer_sequence 256)

/-- The enumeration `mode`. -/
inductive mode where
  | use_table
  | use_branches
  | use_switch
  | use_crt
  deriving DecidableEq, Repr

/-- Strategy `impl_is_white<use_table>`: `tab[static_cast<unsigned>(c)]`.  The
table is a `std::array<bool, 256>`; reading it at an index of 256 or more is
undefined behaviour, here `none`. -/
def impl_is_white_table (char_signed : Bool) (c : CChar) : Option Bool :=
  make_whitespace_flags[static_cast_unsigned (char_value char_signed c)]?

/-- Strategy `impl_is_white<use_branches>`:
`c == ' ' || c == '\n' || c == '\t' || c == '\r'`. -/
def impl_is_white_branches (char_signed : Bool) (c : CChar) : Bool :=
  char_value char_signed c == 32 || char_value char_signed c == 10
    || char_value char_signed c == 9 || char_value char_signed c == 13

/-- Strategy `impl_is_white<use_switch>`: the four case labels fall through to
`return true`, every other value leaves the switch and returns `false`. -/
def impl_is_white_switch (char_signed : Bool) (c : CChar) : Bool :=
  match char_value char_signed c with
  | 32 => true
  | 10 => true
  | 9 => true
  | 13 => true
  | _ => false

/-- The C library function `isspace` in the "C" locale, as whether its result is
nonzero, on an argument representable as `unsigned char`.  It is library code,
not part of `src/`; `main.cpp` never calls `setlocale`, so the "C" locale is in
force, and there ISO C 7.4.1.10 makes it true for exactly the six standard
white-space characters: space (32), form feed (12), newline (10), carriage
return (13), horizontal tab (9) and vertical tab (11). -/
def isspace (ch : Nat) : Bool :=
  ch == 32 || ch == 12 || ch == 10 || ch == 13 || ch == 9 || ch == 11

/-- Strategy `impl_is_white<use_crt>`:
`bool(std::isspace(static_cast<unsigned char>(c)))`. -/
def impl_is_white_crt (char_signed : Bool) (c : CChar) : Bool :=
  isspace (static_cast_unsigned_char (char_value char_signed c))

/-- The call operator of `impl_is_white<M>`; `none` when the call has undefined
behaviour. -/
def impl_is_white (char_signed : Bool) : mode → CChar → Option Bool
  | mode.use_table, c => impl_is_white_table char_signed c
  | mode.use_branches, c => some (impl_is_white_branches char_signed c)
  | mode.use_switch, c => some (impl_is_white_switch char_signed c)
  | mode.use_crt, c => some (impl_is_white_crt char_signed c)

/-- The loop of `std::count_if(first, last, pred)`: `ret` is incremented at each
element the predicate accepts. -/
def count_if_loop (pred : CChar → Option Bool) : List CChar → Nat → Option Nat
  | [], ret => some ret
  | c :: rest, ret =>
    match pred c with
    | none => none
    | some true => count_if_loop pred rest (ret + 1)
    | some false => count_if_loop pred rest ret

/-- The call `std::count_if(sample.begin(), sample.end(), pred)`. -/
def count_if (pred : CChar → Option Bool) (sample : List CChar) : Option Nat :=
  count_if_loop pred sample 0

/-- Function `time_count<Mode>(sample)`: `start` and `stop` are the two readings
of the clock; the result is the pair (`stop - start`, `cnt`). -/
def time_count (char_signed : Bool) (Mode : mode) (start stop : Int)
    (sample : List CChar) : Option (Int × Nat) :=
  match count_if (impl_is_white char_signed Mode) sample with
  | none => none
  | some cnt => some (stop - start, cnt)

/-- The set the specification names: space, newline, tab, carriage-return. -/
def spec_whitespace_set : List CChar := [32, 10, 9, 13]

/-- Membership in the specification's set, as a predicate on a `char`. -/
def in_spec_set (c : CChar) : Bool := decide (c ∈ spec_whitespace_set)

/-- The specification's count: the number of buffer characters in the set. -/
def spec_count (sample : List CChar) : Nat := sample.countP in_spec_set

/-- The six characters `isspace` accepts in the "C" locale. -/
def c_locale_space_set : List CChar := [32, 10, 9, 13, 11, 12]

/-- The candidate string of `make_random_chars`: newline, tab, carriage return,
space, then `,[]"`, the letters a..p, and `:`, `\x7b`, `\x7d` (27 characters). -/
def random_candidates : List CChar :=
  [10, 9, 13, 32, 44, 91, 93, 34,
   97, 98, 99, 100, 101, 102, 103, 104, 105, 106, 107, 108, 109, 110, 111, 112,
   58, 123, 125]

/-- The candidate string of `make_alternating`: newline, tab, carriage return,
space. -/
def alternating_candidates : List CChar := [10, 9, 13, 32]

/-- The loop of `make_random_chars`.  `draw k` is the value of the `k`-th call
`dist(rnd)`, an index into the candidates as `uniform_int_distribution`
guarantees; `k` counts the calls made so far.  The first argument is `length`
before the test `length--`. -/
def make_random_chars_loop (draw : Nat → Fin random_candidates.length) :
    Nat → Nat → List CChar → List CChar
  | 0, _, result => result
  | length + 1, k, result =>
    make_random_chars_loop draw length (k + 1)
      (result ++ [random_candidates.get (draw k)])

/-- The string `make_random_chars(length)` builds under the outcomes `draw`,
once `result.reserve(length)` has succeeded. -/
def make_random_chars (draw : Nat → Fin random_candidates.length) (length : Nat) :
    List CChar :=
  make_random_chars_loop draw length 0 []

/-- The loop of `make_alternating`: inside the body `length` is already
decremented, and `length & 1` selects a drawn candidate, otherwise `'a'` (97). -/
def make_alternating_loop (draw : Nat → Fin alternating_candidates.length) :
    Nat → Nat → List CChar → List CChar
  | 0, _, result => result
  | length + 1, k, result =>
    if length % 2 = 1 then
      make_alternating_loop draw length (k + 1)
        (result ++ [alternating_candidates.get (draw k)])
    else
      make_alternating_loop draw length k (result ++ [97])

/-- The string `make_alternating(length)` builds under the outcomes `draw`,
once `result.reserve(length)` has succeeded. -/
def make_alternating (draw : Nat → Fin alternating_candidates.length)
    (length : Nat) : List CChar :=
  make_alternating_loop draw length 0 []

/-- The exceptions `std::string::reserve` throws. -/
inductive alloc_error where
  | length_error
  | bad_alloc
  deriving DecidableEq, Repr

/-- The call `result.reserve(length)` on the empty string: it throws
`std::length_error` when `length > max_size()`, and `std::bad_alloc` when the
allocator cannot grant `length` characters (`avail` is the largest capacity it
can grant at the time of the call); otherwise the string has capacity for
`length` characters. -/
def reserve (max_size avail length : Nat) : Except alloc_error Unit :=
  if length > max_size then Except.error alloc_error.length_error
  else if length > avail then Except.error alloc_error.bad_alloc
  else Except.ok ()

/-- The largest value of `std::size_t`, 2^64 - 1. -/
def SIZE_MAX : Nat := 18446744073709551615

/-- Function `make_random_chars(length)`: the exception of
`result.reserve(length)` leaves the function (nothing catches it); after a
successful `reserve` the `length` appends stay within the capacity and the
string is returned. -/
def make_random_chars_checked (max_size avail : Nat)
    (draw : Nat → Fin random_candidates.length) (length : Nat) :
    Except alloc_error (List CChar) :=
  match reserve max_size avail length with
  | Except.error e => Except.error e
  | Except.ok _ => Except.ok (make_random_chars draw length)

/-- Function `make_alternating(length)`: the exception of
`result.reserve(length)` leaves the function (nothing catches it); after a
successful `reserve` the `length` appends stay within the capacity and the
string is returned. -/
def make_alternating_checked (max_size avail : Nat)
    (draw : Nat → Fin alternating_candidates.length) (length : Nat) :
    Except alloc_error (List CChar) :=
  match reserve max_size avail length with
  | Except.error e => Except.error e
  | Except.ok _ => Except.ok (make_alternating draw length)

/-- A string literal of the source as characters. -/
def lit (s : String) : List CChar :=
  s.toList.map (fun ch => Fin.ofNat ch.toNat)

/-- Stream insertion of a `std::size_t`: its decimal digits. -/
def put_unsigned (n : Nat) : List CChar :=
  (Nat.toDigits 10 n).map (fun ch => Fin.ofNat ch.toNat)

/-- Stream insertion of the signed tick count `t.count()`: a minus sign (45) for
a negative value, then the decimal digits of the magnitude. -/
def put_signed (v : Int) : List CChar :=
  if v < 0 then 45 :: put_unsigned v.natAbs else put_unsigned v.toNat

/-- One statement
`std::cout << label << cnt << " found in " << t.count() << "ns\n"`. -/
def report_line (label : List CChar) (cnt : Nat) (t : Int) : List CChar :=
  label ++ put_unsigned cnt ++ lit " found in " ++ put_signed t ++ lit "ns" ++ [10]

/-- Function `run_test(title, sample)`: the characters written to `std::cout`.
`clock k` is the `k`-th reading of `high_resolution_clock::now()`. -/
def run_test (char_signed : Bool) (clock : Nat → Int) (title sample : List CChar) :
    Option (List CChar) :=
  let head := title ++ [10] ++ List.replicate title.length 61 ++ [10]
  match time_count char_signed mode.use_branches (clock 0) (clock 1) sample with
  | none => none
  | some (t1, cnt1) =>
    match time_count char_signed mode.use_table (clock 2) (clock 3) sample with
    | none => none
    | some (t2, cnt2) =>
      match time_count char_signed mode.use_switch (clock 4) (clock 5) sample with
      | none => none
      | some (t3, cnt3) =>
        match time_count char_signed mode.use_crt (clock 6) (clock 7) sample with
        | none => none
        | some (t4, cnt4) =>
          some (head ++ report_line (lit "use_branches : ") cnt1 t1
            ++ report_line (lit "use_table    : ") cnt2 t2
            ++ report_line (lit "use_switch   : ") cnt3 t3
            ++ report_line (lit "use_crt      : ") cnt4 t4)

/-- Reading an output line by line: `cur` is the line read so far; a newline
(10) ends it.  The result is the list of terminated lines. -/
def lines_loop : List CChar → List CChar → List (List CChar)
  | [], _ => []
  | c :: rest, cur =>
    if c = 10 then cur :: lines_loop rest [] else lines_loop rest (cur ++ [c])

/-- The newline-terminated lines of an output. -/
def lines_of (out : List CChar) : List (List CChar) := lines_loop out []

/-- The text of the line one strategy reports, without its newline: the label,
the count, " found in ", the tick count, "ns". -/
def line_text (label : List CChar) (cnt : Nat) (t : Int) : List CChar :=
  label ++ put_unsigned cnt ++ lit " found in " ++ put_signed t ++ lit "ns"

/-! ## The table -/

theorem make_whitespace_flags_length : make_whitespace_flags.length = 256 := by
  simp [make_whitespace_flags, make_whitespace_flags_seq, make_integer_sequence]

theorem make_whitespace_flags_lookup (i : Nat) :
    make_whitespace_flags[i]? =
      if i < 256 then some (is_a_whitespace_char (Int.ofNat i)) else none := by
  unfold make_whitespace_flags make_whitespace_flags_seq make_integer_sequence
  rw [List.map_map, List.getElem?_map]
  by_cases h : i < 256
  · rw [List.getElem?_range h, if_pos h]; rfl
  · rw [List.getElem?_eq_none (by simpa using h), if_neg h]; rfl

/-- The table strategy on a byte, with the lookup unfolded. -/
theorem impl_is_white_table_eq (char_signed : Bool) (c : CChar) :
    impl_is_white_table char_signed c =
      if static_cast_unsigned (char_value char_signed c) < 256 then
        some (is_a_whitespace_char
          (Int.ofNat (static_cast_unsigned (char_value char_signed c))))
      else none := by
  unfold impl_is_white_table
  exact make_whitespace_flags_lookup _

/-! ## The four strategies on one character -/

theorem branches_eq_in_spec_set :
    ∀ (char_signed : Bool) (c : CChar),
      impl_is_white_branches char_signed c = in_spec_set c := by
  decide

theorem switch_eq_in_spec_set :
    ∀ (char_signed : Bool) (c : CChar),
      impl_is_white_switch char_signed c = in_spec_set c := by
  decide

theorem crt_eq_six :
    ∀ (char_signed : Bool) (c : CChar),
      impl_is_white_crt char_signed c =
        (in_spec_set c || decide (c = 11) || decide (c = 12)) := by
  decide

theorem table_unsigned_eq :
    ∀ c : CChar, impl_is_white_table false c = some (in_spec_set c) := by
  intro c
  rw [impl_is_white_table_eq]
  revert c
  decide

theorem table_signed_eq :
    ∀ c : CChar, impl_is_white_table true c =
      if c.val < 128 then some (in_spec_set c) else none := by
  intro c
  rw [impl_is_white_table_eq]
  revert c
  decide

theorem table_index_lt_iff :
    ∀ (char_signed : Bool) (c : CChar),
      static_cast_unsigned (char_value char_signed c) < 256 ↔
        (char_signed = false ∨ c.val < 128) := by
  decide

/-- Wherever the table strategy is defined it agrees with the branch chain, and
it is defined exactly when the index is in range. -/
theorem table_eq_cases (char_signed : Bool) (c : CChar) :
    impl_is_white_table char_signed c =
      if char_signed = false ∨ c.val < 128 then some (in_spec_set c) else none := by
  cases char_signed
  · simp [table_unsigned_eq]
  · simp [table_signed_eq]

/-! ## The counting pass -/

theorem count_if_loop_total (pred : CChar → Option Bool) (f : CChar → Bool) :
    ∀ (sample : List CChar) (ret : Nat),
      (∀ c ∈ sample, pred c = some (f c)) →
        count_if_loop pred sample ret = some (ret + sample.countP f) := by
  intro sample
  induction sample with
  | nil => intro ret _; simp [count_if_loop]
  | cons c rest ih =>
    intro ret h
    have hc : pred c = some (f c) := h c (List.mem_cons_self c rest)
    have hrest : ∀ d ∈ rest, pred d = some (f d) :=
      fun d hd => h d (List.mem_cons_of_mem c hd)
    unfold count_if_loop
    rw [hc]
    cases hf : f c
    · simp only [ih ret hrest, List.countP_cons, hf]
      simp
    · simp only [ih (ret + 1) hrest, List.countP_cons, hf]
      simp; omega

theorem count_if_loop_undefined (pred : CChar → Option Bool) :
    ∀ (sample : List CChar) (ret : Nat),
      (∃ c ∈ sample, pred c = none) → count_if_loop pred sample ret = none := by
  intro sample
  induction sample with
  | nil => intro ret h; obtain ⟨c, hc, _⟩ := h; cases hc
  | cons c rest ih =>
    intro ret h
    unfold count_if_loop
    cases hp : pred c with
    | none => rfl
    | some b =>
      have hrest : ∃ d ∈ rest, pred d = none := by
        obtain ⟨d, hd, hdn⟩ := h
        rcases List.mem_cons.mp hd with rfl | hd2
        · rw [hp] at hdn; cases hdn
        · exact ⟨d, hd2, hdn⟩
      cases b
      · exact ih ret hrest
      · exact ih (ret + 1) hrest

theorem time_count_total (char_signed : Bool) (Mode : mode) (f : CChar → Bool)
    (start stop : Int) (sample : List CChar)
    (h : ∀ c ∈ sample, impl_is_white char_signed Mode c = some (f c)) :
    time_count char_signed Mode start stop sample =
      some (stop - start, sample.countP f) := by
  unfold time_count count_if
  rw [count_if_loop_total _ f sample 0 h]
  simp

theorem time_count_undefined (char_signed : Bool) (Mode : mode)
    (start stop : Int) (sample : List CChar)
    (h : ∃ c ∈ sample, impl_is_white char_signed Mode c = none) :
    time_count char_signed Mode start stop sample = none := by
  unfold time_count count_if
  rw [count_if_loop_undefined _ sample 0 h]

theorem time_count_branches (char_signed : Bool) (start stop : Int)
    (sample : List CChar) :
    time_count char_signed mode.use_branches start stop sample =
      some (stop - start, spec_count sample) :=
  time_count_total char_signed mode.use_branches in_spec_set start stop sample
    (fun c _ => by simp [impl_is_white, branches_eq_in_spec_set])

theorem time_count_switch (char_signed : Bool) (start stop : Int)
    (sample : List CChar) :
    time_count char_signed mode.use_switch start stop sample =
      some (stop - start, spec_count sample) :=
  time_count_total char_signed mode.use_switch in_spec_set start stop sample
    (fun c _ => by simp [impl_is_white, switch_eq_in_spec_set])

theorem time_count_table (char_signed : Bool) (start stop : Int)
    (sample : List CChar)
    (h : char_signed = false ∨ ∀ c ∈ sample, c.val < 128) :
    time_count char_signed mode.use_table start stop sample =
      some (stop - start, spec_count sample) := by
  refine time_count_total char_signed mode.use_table in_spec_set start stop sample ?_
  intro c hc
  have hin : char_signed = false ∨ c.val < 128 := by
    rcases h with h | h
    · exact Or.inl h
    · exact Or.inr (h c hc)
  simp only [impl_is_white, table_eq_cases, if_pos hin]

theorem crt_iff_six (char_signed : Bool) (c : CChar) :
    impl_is_white_crt char_signed c = decide (c ∈ c_locale_space_set) := by
  rw [crt_eq_six]
  revert c
  decide

theorem time_count_crt (char_signed : Bool) (start stop : Int)
    (sample : List CChar) :
    time_count char_signed mode.use_crt start stop sample =
      some (stop - start, sample.countP (fun c => decide (c ∈ c_locale_space_set))) :=
  time_count_total char_signed mode.use_crt _ start stop sample
    (fun c _ => by simp [impl_is_white, crt_iff_six])

/-- The counting pass in full: it is defined exactly when the strategy is
defined on every character of the buffer, and then returns the elapsed time and
the number of positions the strategy accepts. -/
theorem time_count_eq (char_signed : Bool) (Mode : mode) (start stop : Int)
    (sample : List CChar) :
    time_count char_signed Mode start stop sample =
      if ∀ c ∈ sample, impl_is_white char_signed Mode c ≠ none then
        some (stop - start,
          sample.countP (fun c => impl_is_white char_signed Mode c == some true))
      else none := by
  by_cases h : ∀ c ∈ sample, impl_is_white char_signed Mode c ≠ none
  · rw [if_pos h]
    apply time_count_total
    intro c hc
    cases hv : impl_is_white char_signed Mode c with
    | none => exact absurd hv (h c hc)
    | some b => cases b <;> rfl
  · rw [if_neg h]
    apply time_count_undefined
    push_neg at h
    exact h

theorem spec_count_eq_of_no_vt_ff (sample : List CChar)
    (h : ∀ c ∈ sample, c ≠ 11 ∧ c ≠ 12) :
    sample.countP (fun c => decide (c ∈ c_locale_space_set)) = spec_count sample := by
  unfold spec_count
  apply List.countP_congr
  intro c hc
  obtain ⟨h11, h12⟩ := h c hc
  simp only [in_spec_set, c_locale_space_set, spec_whitespace_set, List.mem_cons,
    decide_eq_true_eq]
  simp [h11, h12]

/-- Where the strategy is defined on every character of the buffer, the count of
`time_count` is the number of accepted positions: 0 on the empty buffer, at most
the length, and the length exactly when every character is accepted. -/
theorem time_count_count_bounds (char_signed : Bool) (Mode : mode)
    (start stop : Int) (sample : List CChar)
    (h : ∀ c ∈ sample, impl_is_white char_signed Mode c ≠ none) :
    time_count char_signed Mode start stop [] = some (stop - start, 0) ∧
    ∃ cnt : Nat,
      time_count char_signed Mode start stop sample = some (stop - start, cnt) ∧
      cnt = (sample.filter
        (fun c => impl_is_white char_signed Mode c == some true)).length ∧
      cnt ≤ sample.length ∧
      (cnt = sample.length ↔
        ∀ c ∈ sample, impl_is_white char_signed Mode c = some true) := by
  refine ⟨rfl, _, by rw [time_count_eq, if_pos h], ?_, List.countP_le_length _, ?_⟩
  · rw [List.countP_eq_length_filter]
  · rw [List.countP_eq_length]
    simp

/-- The three strategies other than the table are defined on every `char`. -/
theorem impl_is_white_defined (char_signed : Bool) (Mode : mode) (c : CChar)
    (h : Mode ≠ mode.use_table ∨ char_signed = false ∨ c.val < 128) :
    impl_is_white char_signed Mode c ≠ none := by
  cases Mode with
  | use_table =>
    have hin : char_signed = false ∨ c.val < 128 := by
      rcases h with h | h
      · exact absurd rfl h
      · exact h
    simp only [impl_is_white, table_eq_cases, if_pos hin]
    simp
  | use_branches => simp [impl_is_white]
  | use_switch => simp [impl_is_white]
  | use_crt => simp [impl_is_white]

/-! ## The generators -/

theorem make_random_chars_loop_eq (draw : Nat → Fin random_candidates.length) :
    ∀ (length k : Nat) (result : List CChar),
      ∃ tail : List CChar,
        make_random_chars_loop draw length k result = result ++ tail ∧
        tail.length = length ∧ ∀ c ∈ tail, c ∈ random_candidates := by
  intro length
  induction length with
  | zero => intro k result; exact ⟨[], by simp [make_random_chars_loop]⟩
  | succ n ih =>
    intro k result
    obtain ⟨tail, heq, hlen, hmem⟩ :=
      ih (k + 1) (result ++ [random_candidates.get (draw k)])
    refine ⟨random_candidates.get (draw k) :: tail, ?_, by simp [hlen], ?_⟩
    · rw [make_random_chars_loop, heq]; simp
    · intro c hc
      rcases List.mem_cons.mp hc with rfl | hc
      · exact List.get_mem _ _ _
      · exact hmem c hc

/-- The part of the string `make_alternating_loop` appends, read off the
remaining length: position `j` of the tail is written when `length` has been
decremented to `n - 1 - j`. -/
theorem make_alternating_loop_eq (draw : Nat → Fin alternating_candidates.length) :
    ∀ (length k : Nat) (result : List CChar),
      ∃ tail : List CChar,
        make_alternating_loop draw length k result = result ++ tail ∧
        tail.length = length ∧
        ∀ j, j < length →
          ((length - 1 - j) % 2 = 0 → tail[j]? = some 97) ∧
          ((length - 1 - j) % 2 = 1 →
            ∃ m, tail[j]? = some (alternating_candidates.get (draw m))) := by
  intro length
  induction length with
  | zero =>
    intro k result
    exact ⟨[], by simp [make_alternating_loop], rfl, fun j hj => absurd hj (Nat.not_lt_zero j)⟩
  | succ n ih =>
    intro k result
    by_cases hodd : n % 2 = 1
    · obtain ⟨tail, heq, hlen, hpos⟩ :=
        ih (k + 1) (result ++ [alternating_candidates.get (draw k)])
      refine ⟨alternating_candidates.get (draw k) :: tail, ?_, by simp [hlen], ?_⟩
      · rw [make_alternating_loop, if_pos hodd, heq]; simp
      · intro j hj
        cases j with
        | zero =>
          refine ⟨fun h0 => ?_, fun _ => ⟨k, by simp⟩⟩
          simp at h0; omega
        | succ j =>
          have hj2 : j < n := by omega
          have hsub : n + 1 - 1 - (j + 1) = n - 1 - j := by omega
          rw [hsub]
          simpa using hpos j hj2
    · obtain ⟨tail, heq, hlen, hpos⟩ := ih k (result ++ [97])
      refine ⟨97 :: tail, ?_, by simp [hlen], ?_⟩
      · rw [make_alternating_loop, if_neg hodd, heq]; simp
      · intro j hj
        cases j with
        | zero =>
          refine ⟨fun _ => by simp, fun h1 => ?_⟩
          simp at h1; omega
        | succ j =>
          have hj2 : j < n := by omega
          have hsub : n + 1 - 1 - (j + 1) = n - 1 - j := by omega
          rw [hsub]
          simpa using hpos j hj2

theorem make_random_chars_mem (draw : Nat → Fin random_candidates.length)
    (length : Nat) : ∀ c ∈ make_random_chars draw length, c ∈ random_candidates := by
  obtain ⟨tail, heq, _, hmem⟩ := make_random_chars_loop_eq draw length 0 []
  intro c hc
  rw [make_random_chars, heq] at hc
  exact hmem c (by simpa using hc)

theorem make_alternating_eq (draw : Nat → Fin alternating_candidates.length)
    (length : Nat) :
    (make_alternating draw length).length = length ∧
    ∀ j, j < length →
      ((length - 1 - j) % 2 = 0 → (make_alternating draw length)[j]? = some 97) ∧
      ((length - 1 - j) % 2 = 1 →
        ∃ m, (make_alternating draw length)[j]? =
          some (alternating_candidates.get (draw m))) := by
  obtain ⟨tail, heq, hlen, hpos⟩ := make_alternating_loop_eq draw length 0 []
  have hout : make_alternating draw length = tail := by
    rw [make_alternating, heq]; simp
  rw [hout]
  exact ⟨hlen, hpos⟩

theorem alternating_candidates_cases :
    ∀ i : Fin alternating_candidates.length,
      (alternating_candidates.get i = 10 ∨ alternating_candidates.get i = 9 ∨
        alternating_candidates.get i = 13 ∨ alternating_candidates.get i = 32) ∧
      alternating_candidates.get i ∈ random_candidates := by
  decide

theorem make_alternating_mem (draw : Nat → Fin alternating_candidates.length)
    (length : Nat) : ∀ c ∈ make_alternating draw length, c ∈ random_candidates := by
  obtain ⟨hlen, hpos⟩ := make_alternating_eq draw length
  intro c hc
  obtain ⟨j, hj, hget⟩ := List.getElem_of_mem hc
  have hj2 : j < length := by rw [← hlen]; exact hj
  have hsome : (make_alternating draw length)[j]? = some c := by
    rw [List.getElem?_eq_getElem hj, hget]
  rcases Nat.mod_two_eq_zero_or_one (length - 1 - j) with h0 | h1
  · have h := (hpos j hj2).1 h0
    rw [hsome] at h
    cases h
    decide
  · obtain ⟨m, h⟩ := (hpos j hj2).2 h1
    rw [hsome] at h
    cases h
    exact (alternating_candidates_cases (draw m)).2

theorem candidates_plain :
    ∀ c : CChar, c ∈ random_candidates → c.val < 128 ∧ c ≠ 11 ∧ c ≠ 12 := by
  decide

/-! ## The report -/

theorem run_test_eq (char_signed : Bool) (clock : Nat → Int)
    (title sample : List CChar) (cnt1 cnt2 cnt3 cnt4 : Nat)
    (h1 : time_count char_signed mode.use_branches (clock 0) (clock 1) sample =
      some (clock 1 - clock 0, cnt1))
    (h2 : time_count char_signed mode.use_table (clock 2) (clock 3) sample =
      some (clock 3 - clock 2, cnt2))
    (h3 : time_count char_signed mode.use_switch (clock 4) (clock 5) sample =
      some (clock 5 - clock 4, cnt3))
    (h4 : time_count char_signed mode.use_crt (clock 6) (clock 7) sample =
      some (clock 7 - clock 6, cnt4)) :
    run_test char_signed clock title sample =
      some (title ++ [10] ++ List.replicate title.length 61 ++ [10]
        ++ report_line (lit "use_branches : ") cnt1 (clock 1 - clock 0)
        ++ report_line (lit "use_table    : ") cnt2 (clock 3 - clock 2)
        ++ report_line (lit "use_switch   : ") cnt3 (clock 5 - clock 4)
        ++ report_line (lit "use_crt      : ") cnt4 (clock 7 - clock 6)) := by
  unfold run_test
  simp only [h1, h2, h3, h4]

theorem report_line_eq (label : List CChar) (cnt : Nat) (t : Int) :
    report_line label cnt t = line_text label cnt t ++ [10] := rfl

theorem lines_loop_append :
    ∀ (l rest cur : List CChar), (10 : CChar) ∉ l →
      lines_loop (l ++ 10 :: rest) cur = (cur ++ l) :: lines_loop rest [] := by
  intro l
  induction l with
  | nil => intro rest cur _; simp [lines_loop]
  | cons c l ih =>
    intro rest cur h
    have hc : c ≠ 10 := fun e => h (by rw [e]; exact List.mem_cons_self _ _)
    have hl : (10 : CChar) ∉ l := fun e => h (List.mem_cons_of_mem _ e)
    rw [List.cons_append, lines_loop, if_neg hc, ih rest (cur ++ [c]) hl]
    simp

theorem lines_of_six (a b c d e f : List CChar)
    (ha : (10 : CChar) ∉ a) (hb : (10 : CChar) ∉ b) (hc : (10 : CChar) ∉ c)
    (hd : (10 : CChar) ∉ d) (he : (10 : CChar) ∉ e) (hf : (10 : CChar) ∉ f) :
    lines_of (a ++ [10] ++ b ++ [10] ++ (c ++ [10]) ++ (d ++ [10]) ++ (e ++ [10])
      ++ (f ++ [10])) = [a, b, c, d, e, f] := by
  have hform : a ++ [10] ++ b ++ [10] ++ (c ++ [10]) ++ (d ++ [10]) ++ (e ++ [10])
      ++ (f ++ [10]) =
      a ++ 10 :: (b ++ 10 :: (c ++ 10 :: (d ++ 10 :: (e ++ 10 :: (f ++ 10 :: []))))) := by
    simp
  rw [hform, lines_of, lines_loop_append _ _ _ ha, lines_loop_append _ _ _ hb,
    lines_loop_append _ _ _ hc, lines_loop_append _ _ _ hd, lines_loop_append _ _ _ he,
    lines_loop_append _ _ _ hf]
  simp [lines_loop]

theorem digitChar_ne_newline (d : Nat) (h : d < 10) :
    (Fin.ofNat (Nat.digitChar d).toNat : CChar) ≠ 10 := by
  interval_cases d <;> decide

theorem toDigitsCore_no_newline :
    ∀ (fuel n : Nat) (ds : List Char),
      (∀ ch ∈ ds, (Fin.ofNat ch.toNat : CChar) ≠ 10) →
        ∀ ch ∈ Nat.toDigitsCore 10 fuel n ds, (Fin.ofNat ch.toNat : CChar) ≠ 10 := by
  intro fuel
  induction fuel with
  | zero => intro n ds h; simpa [Nat.toDigitsCore] using h
  | succ f ih =>
    intro n ds h
    have hd : ∀ ch ∈ Nat.digitChar (n % 10) :: ds, (Fin.ofNat ch.toNat : CChar) ≠ 10 := by
      intro ch hch
      rcases List.mem_cons.mp hch with rfl | hch
      · exact digitChar_ne_newline _ (Nat.mod_lt _ (by norm_num))
      · exact h ch hch
    unfold Nat.toDigitsCore
    by_cases h0 : n / 10 = 0
    · simpa [h0] using hd
    · simp only [h0, if_false]
      exact ih (n / 10) _ hd

theorem put_unsigned_no_newline (n : Nat) : (10 : CChar) ∉ put_unsigned n := by
  intro h
  unfold put_unsigned at h
  obtain ⟨ch, hch, he⟩ := List.mem_map.mp h
  exact toDigitsCore_no_newline (n + 1) n [] (by simp) ch hch he

theorem put_signed_no_newline (v : Int) : (10 : CChar) ∉ put_signed v := by
  unfold put_signed
  split
  · intro h
    rcases List.mem_cons.mp h with h | h
    · exact absurd h (by decide)
    · exact put_unsigned_no_newline _ h
  · exact put_unsigned_no_newline _

theorem line_text_no_newline (label : List CChar) (cnt : Nat) (t : Int)
    (h : (10 : CChar) ∉ label) : (10 : CChar) ∉ line_text label cnt t := by
  unfold line_text
  simp only [List.mem_append, not_or]
  exact ⟨⟨⟨⟨h, put_unsigned_no_newline cnt⟩, by decide⟩, put_signed_no_newline t⟩,
    by decide⟩

/-- The string built for the length `L`, whatever the RNG outcomes, has exactly
`L` characters and its position `i` holds 'a' (97) when
`L - 1 - i` is even and one of newline, tab, carriage return, space when
`L - 1 - i` is odd; so neighbouring positions never both hold 'a' nor both hold
whitespace, and for `L >= 1` the last character is 'a'. -/
theorem make_alternating_shape
    (draw : Nat → Fin alternating_candidates.length) (L : Nat) :
    (make_alternating draw L).length = L ∧
    (∀ i, i < L →
      ((L - 1 - i) % 2 = 0 → (make_alternating draw L)[i]? = some 97) ∧
      ((L - 1 - i) % 2 = 1 →
        ∃ c : CChar, (c = 10 ∨ c = 9 ∨ c = 13 ∨ c = 32) ∧
          (make_alternating draw L)[i]? = some c)) ∧
    (∀ i, i + 1 < L →
      ((make_alternating draw L)[i]? = some 97 ↔
        (make_alternating draw L)[i + 1]? ≠ some 97)) ∧
    (1 ≤ L → (make_alternating draw L).getLast? = some 97) := by
  obtain ⟨hlen, hpos⟩ := make_alternating_eq draw L
  have hshape : ∀ i, i < L →
      ((L - 1 - i) % 2 = 0 → (make_alternating draw L)[i]? = some 97) ∧
      ((L - 1 - i) % 2 = 1 →
        ∃ c : CChar, (c = 10 ∨ c = 9 ∨ c = 13 ∨ c = 32) ∧
          (make_alternating draw L)[i]? = some c) := by
    intro i hi
    refine ⟨(hpos i hi).1, fun h1 => ?_⟩
    obtain ⟨m, hm⟩ := (hpos i hi).2 h1
    exact ⟨_, (alternating_candidates_cases (draw m)).1, hm⟩
  have hodd : ∀ i, i < L → (L - 1 - i) % 2 = 1 →
      (make_alternating draw L)[i]? ≠ some 97 := by
    intro i hi h1 h97
    obtain ⟨c, hc, hget⟩ := (hshape i hi).2 h1
    rw [hget] at h97
    have hc97 : c = 97 := Option.some.inj h97
    subst hc97
    revert hc
    decide
  refine ⟨hlen, hshape, ?_, ?_⟩
  · intro i hi
    rcases Nat.mod_two_eq_zero_or_one (L - 1 - i) with h0 | h1
    · have hnext : (L - 1 - (i + 1)) % 2 = 1 := by omega
      exact ⟨fun _ => hodd (i + 1) hi hnext, fun _ => (hshape i (by omega)).1 h0⟩
    · have hnext : (L - 1 - (i + 1)) % 2 = 0 := by omega
      exact ⟨fun h97 => absurd h97 (hodd i (by omega) h1),
        fun hne => absurd ((hshape (i + 1) hi).1 hnext) hne⟩
  · intro hL
    rw [List.getLast?_eq_getElem?, hlen]
    exact (hshape (L - 1) (by omega)).1 (by simp)

theorem make_alternating_checked_eq (max_size avail : Nat)
    (draw : Nat → Fin alternating_candidates.length) (length : Nat) :
    make_alternating_checked max_size avail draw length =
      if length > max_size then Except.error alloc_error.length_error
      else if length > avail then Except.error alloc_error.bad_alloc
      else Except.ok (make_alternating draw length) := by
  unfold make_alternating_checked reserve
  by_cases h1 : length > max_size
  · simp [h1]
  · by_cases h2 : length > avail
    · simp [h1, h2]
    · simp [h1, h2]

/-! ## Counts on the alternating sample -/

theorem alternating_candidates_in_spec_set :
    (∀ i : Fin alternating_candidates.length,
      in_spec_set (alternating_candidates.get i) = true) ∧
    in_spec_set 97 = false := by
  decide

/-- The tail `make_alternating_loop` appends for a remaining `length` holds
`length / 2` characters of the set of four: one for each odd value the
decremented `length` takes. -/
theorem make_alternating_loop_spec_count
    (draw : Nat → Fin alternating_candidates.length) :
    ∀ (length k : Nat) (result : List CChar),
      spec_count (make_alternating_loop draw length k result) =
        spec_count result + length / 2 := by
  intro length
  induction length with
  | zero => intro k result; simp [make_alternating_loop]
  | succ n ih =>
    intro k result
    by_cases hodd : n % 2 = 1
    · rw [make_alternating_loop, if_pos hodd, ih]
      simp only [spec_count, List.countP_append, List.countP_cons, List.countP_nil,
        alternating_candidates_in_spec_set.1 (draw k)]
      simp only [if_true]
      omega
    · rw [make_alternating_loop, if_neg hodd, ih]
      simp only [spec_count, List.countP_append, List.countP_cons, List.countP_nil,
        alternating_candidates_in_spec_set.2]
      simp only [Bool.false_eq_true, if_false]
      omega

theorem make_alternating_spec_count
    (draw : Nat → Fin alternating_candidates.length) (length : Nat) :
    spec_count (make_alternating draw length) = length / 2 := by
  rw [make_alternating, make_alternating_loop_spec_count]
  simp [spec_count]

theorem branches_imp_crt :
    ∀ (char_signed : Bool) (c : CChar),
      impl_is_white_branches char_signed c = true →
        impl_is_white_crt char_signed c = true := by
  decide

/-! ## The claims -/

/-- C1, as stated, fails: on the one-character buffer holding a vertical tab
(11), with plain `char` unsigned, the table, the branch chain and the switch
count 0 and `std::isspace` counts 1. -/
theorem C1_counts_differ_on_vertical_tab :
    time_count false mode.use_table 0 0 [11] = some (0, 0) ∧
    time_count false mode.use_branches 0 0 [11] = some (0, 0) ∧
    time_count false mode.use_switch 0 0 [11] = some (0, 0) ∧
    time_count false mode.use_crt 0 0 [11] = some (0, 1) := by
  decide

/-- C1, amended: for every buffer that holds no vertical tab (11) and no form
feed (12), and whose table lookups are in range (plain `char` unsigned, or every
byte below 128), the four strategies return the same count from `time_count`. -/
theorem C1_counts_agree (char_signed : Bool) (start stop : Int)
    (sample : List CChar)
    (hws : ∀ c ∈ sample, c ≠ 11 ∧ c ≠ 12)
    (hidx : char_signed = false ∨ ∀ c ∈ sample, c.val < 128) :
    ∃ cnt : Nat,
      time_count char_signed mode.use_table start stop sample = some (stop - start, cnt) ∧
      time_count char_signed mode.use_branches start stop sample = some (stop - start, cnt) ∧
      time_count char_signed mode.use_switch start stop sample = some (stop - start, cnt) ∧
      time_count char_signed mode.use_crt start stop sample = some (stop - start, cnt) :=
  ⟨spec_count sample,
    time_count_table char_signed start stop sample hidx,
    time_count_branches char_signed start stop sample,
    time_count_switch char_signed start stop sample,
    by rw [time_count_crt, spec_count_eq_of_no_vt_ff sample hws]⟩

/-- C1, amended, at the buffer "a \n\ta" on a signed-char platform. -/
theorem C1_counts_agree_witness :
    (∀ c ∈ ([97, 32, 10, 9, 97] : List CChar), c ≠ 11 ∧ c ≠ 12) ∧
    (∀ c ∈ ([97, 32, 10, 9, 97] : List CChar), c.val < 128) ∧
    ∃ cnt : Nat,
      time_count true mode.use_table 3 8 [97, 32, 10, 9, 97] = some (8 - 3, cnt) ∧
      time_count true mode.use_branches 3 8 [97, 32, 10, 9, 97] = some (8 - 3, cnt) ∧
      time_count true mode.use_switch 3 8 [97, 32, 10, 9, 97] = some (8 - 3, cnt) ∧
      time_count true mode.use_crt 3 8 [97, 32, 10, 9, 97] = some (8 - 3, cnt) :=
  ⟨by decide, by decide,
    C1_counts_agree true 3 8 [97, 32, 10, 9, 97] (by decide) (Or.inr (by decide))⟩

/-- C2: on either kind of platform and for every `char`, the branch chain and the
switch each return true exactly when the character is one of space, newline,
tab, carriage return; so for every buffer and clock readings `time_count` with
either strategy returns the number of buffer characters in that set. -/
theorem C2_branches_switch_exact (char_signed : Bool) :
    (∀ c : CChar, impl_is_white char_signed mode.use_branches c =
        some (impl_is_white_branches char_signed c) ∧
      (impl_is_white_branches char_signed c = true ↔ c ∈ spec_whitespace_set)) ∧
    (∀ c : CChar, impl_is_white char_signed mode.use_switch c =
        some (impl_is_white_switch char_signed c) ∧
      (impl_is_white_switch char_signed c = true ↔ c ∈ spec_whitespace_set)) ∧
    (∀ (start stop : Int) (sample : List CChar),
      time_count char_signed mode.use_branches start stop sample =
          some (stop - start, spec_count sample) ∧
      time_count char_signed mode.use_switch start stop sample =
          some (stop - start, spec_count sample)) := by
  refine ⟨fun c => ⟨rfl, ?_⟩, fun c => ⟨rfl, ?_⟩, fun start stop sample => ⟨?_, ?_⟩⟩
  · rw [branches_eq_in_spec_set]; simp [in_spec_set]
  · rw [switch_eq_in_spec_set]; simp [in_spec_set]
  · exact time_count_branches char_signed start stop sample
  · exact time_count_switch char_signed start stop sample

/-- C3, as stated, fails: `std::isspace` accepts the vertical tab (11) and the
form feed (12), which are not in the set of the four characters. -/
theorem C3_crt_accepts_vertical_tab :
    impl_is_white false mode.use_crt 11 = some true ∧
    impl_is_white false mode.use_crt 12 = some true ∧
    (11 : CChar) ∉ spec_whitespace_set ∧ (12 : CChar) ∉ spec_whitespace_set ∧
    time_count false mode.use_crt 0 0 [11, 12] = some (0, 2) ∧
    spec_count [11, 12] = 0 := by
  decide

/-- C3, amended: for every `char` the platform strategy returns true exactly when
the character is one of space, newline, tab, carriage return, vertical tab, form
feed; so for every buffer its count is the number of buffer characters in that
set of six. -/
theorem C3_crt_exact_six (char_signed : Bool) :
    (∀ c : CChar, impl_is_white char_signed mode.use_crt c =
        some (impl_is_white_crt char_signed c) ∧
      (impl_is_white_crt char_signed c = true ↔ c ∈ c_locale_space_set)) ∧
    (∀ (start stop : Int) (sample : List CChar),
      time_count char_signed mode.use_crt start stop sample =
        some (stop - start,
          sample.countP (fun c => decide (c ∈ c_locale_space_set)))) := by
  refine ⟨fun c => ⟨rfl, ?_⟩, fun start stop sample => ?_⟩
  · rw [crt_iff_six]; simp
  · exact time_count_crt char_signed start stop sample

/-- C4 fails where plain `char` is signed: for the `char` with byte 128 (value
-128) the index `static_cast<unsigned>(c)` is 4294967168, the read of the
256-entry table is out of range and the table strategy has no defined result,
while the branch chain returns false. -/
theorem C4_table_undefined_on_negative_char :
    char_value true 128 = -128 ∧
    static_cast_unsigned (char_value true 128) = 4294967168 ∧
    make_whitespace_flags.length = 256 ∧
    impl_is_white true mode.use_table 128 = none ∧
    impl_is_white true mode.use_branches 128 = some false := by
  refine ⟨by decide, by decide, make_whitespace_flags_length, ?_, by decide⟩
  show impl_is_white_table true 128 = none
  rw [table_signed_eq]; decide

/-- C5: the table has 256 entries; entry `i` is true exactly when `i` is 9, 10,
13 or 32, which is exactly when the branch chain accepts the character with
code `i`; and exactly four entries are true. -/
theorem C5_table_matches_branches :
    make_whitespace_flags.length = 256 ∧
    (∀ i : Fin 256,
      make_whitespace_flags[i.val]? =
        some (decide (i.val = 9 ∨ i.val = 10 ∨ i.val = 13 ∨ i.val = 32)) ∧
      ∀ char_signed : Bool,
        make_whitespace_flags[i.val]? = some (impl_is_white_branches char_signed i)) ∧
    make_whitespace_flags.count true = 4 := by
  refine ⟨make_whitespace_flags_length, ?_, by decide⟩
  intro i
  rw [make_whitespace_flags_lookup, if_pos i.isLt]
  revert i
  decide

/-- C6 fails where plain `char` is signed: on the two-character buffer with
bytes 97 and 233 (values 'a' and -23) the counting pass with the table strategy
reads the table at index 4294967273 and returns no count, while the other three
strategies return the count 0. -/
theorem C6_time_count_table_undefined :
    static_cast_unsigned (char_value true 233) = 4294967273 ∧
    time_count true mode.use_table 0 1 [97, 233] = none ∧
    time_count true mode.use_branches 0 1 [97, 233] = some (1, 0) ∧
    time_count true mode.use_switch 0 1 [97, 233] = some (1, 0) ∧
    time_count true mode.use_crt 0 1 [97, 233] = some (1, 0) := by
  refine ⟨by decide, ?_, by decide, by decide, by decide⟩
  apply time_count_undefined
  refine ⟨233, by decide, ?_⟩
  show impl_is_white_table true 233 = none
  rw [table_signed_eq]; decide

/-- C7, as stated, fails: with the one-character title holding a newline,
`run_test` on the empty sample emits seven lines, two of them empty where the
claim has the title line. -/
theorem C7_title_with_newline_seven_lines :
    (run_test false (fun _ => 0) [10] []).map lines_of =
      some [[], [], [61],
        lit "use_branches : 0 found in 0ns", lit "use_table    : 0 found in 0ns",
        lit "use_switch   : 0 found in 0ns", lit "use_crt      : 0 found in 0ns"] := by
  decide

/-- C7, amended: for every title that holds no newline character, every sample on
which the table lookups are in range (plain `char` unsigned, or every byte below
128) and whatever the clock readings, `run_test` emits exactly six lines in this
order: the title; a line of '=' as long as the title; then the lines labelled
use_branches, use_table, use_switch, use_crt, each with the count `time_count`
computes for that strategy on the sample (and its elapsed time). -/
theorem C7_run_test_six_lines (char_signed : Bool) (clock : Nat → Int)
    (title sample : List CChar)
    (htitle : (10 : CChar) ∉ title)
    (hidx : char_signed = false ∨ ∀ c ∈ sample, c.val < 128) :
    ∃ (out : List CChar) (cnt1 cnt2 cnt3 cnt4 : Nat),
      time_count char_signed mode.use_branches (clock 0) (clock 1) sample =
        some (clock 1 - clock 0, cnt1) ∧
      time_count char_signed mode.use_table (clock 2) (clock 3) sample =
        some (clock 3 - clock 2, cnt2) ∧
      time_count char_signed mode.use_switch (clock 4) (clock 5) sample =
        some (clock 5 - clock 4, cnt3) ∧
      time_count char_signed mode.use_crt (clock 6) (clock 7) sample =
        some (clock 7 - clock 6, cnt4) ∧
      run_test char_signed clock title sample = some out ∧
      out = title ++ [10] ++ List.replicate title.length 61 ++ [10]
        ++ line_text (lit "use_branches : ") cnt1 (clock 1 - clock 0) ++ [10]
        ++ line_text (lit "use_table    : ") cnt2 (clock 3 - clock 2) ++ [10]
        ++ line_text (lit "use_switch   : ") cnt3 (clock 5 - clock 4) ++ [10]
        ++ line_text (lit "use_crt      : ") cnt4 (clock 7 - clock 6) ++ [10] ∧
      lines_of out =
        [title, List.replicate title.length 61,
          line_text (lit "use_branches : ") cnt1 (clock 1 - clock 0),
          line_text (lit "use_table    : ") cnt2 (clock 3 - clock 2),
          line_text (lit "use_switch   : ") cnt3 (clock 5 - clock 4),
          line_text (lit "use_crt      : ") cnt4 (clock 7 - clock 6)] := by
  have h1 := time_count_branches char_signed (clock 0) (clock 1) sample
  have h2 := time_count_table char_signed (clock 2) (clock 3) sample hidx
  have h3 := time_count_switch char_signed (clock 4) (clock 5) sample
  have h4 := time_count_crt char_signed (clock 6) (clock 7) sample
  refine ⟨_, _, _, _, _, h1, h2, h3, h4, run_test_eq _ _ _ _ _ _ _ _ h1 h2 h3 h4, ?_, ?_⟩
  · simp only [report_line_eq, List.append_assoc]
  · have hbar : (10 : CChar) ∉ List.replicate title.length (61 : CChar) := by
      intro h
      exact absurd (List.eq_of_mem_replicate h) (by decide)
    simp only [report_line_eq]
    exact lines_of_six _ _ _ _ _ _ htitle hbar
      (line_text_no_newline _ _ _ (by decide)) (line_text_no_newline _ _ _ (by decide))
      (line_text_no_newline _ _ _ (by decide)) (line_text_no_newline _ _ _ (by decide))

/-- C7, amended, at the title "Hi", the sample " a\n" and clock readings
0, 1, 2, ... on a signed-char platform. -/
theorem C7_run_test_six_lines_witness :
    (10 : CChar) ∉ lit "Hi" ∧ (∀ c ∈ ([32, 97, 10] : List CChar), c.val < 128) ∧
    ∃ (out : List CChar) (cnt1 cnt2 cnt3 cnt4 : Nat),
      time_count true mode.use_branches 0 1 [32, 97, 10] = some (1 - 0, cnt1) ∧
      time_count true mode.use_table 2 3 [32, 97, 10] = some (3 - 2, cnt2) ∧
      time_count true mode.use_switch 4 5 [32, 97, 10] = some (5 - 4, cnt3) ∧
      time_count true mode.use_crt 6 7 [32, 97, 10] = some (7 - 6, cnt4) ∧
      run_test true (fun k => (k : Int)) (lit "Hi") [32, 97, 10] = some out ∧
      out = lit "Hi" ++ [10] ++ List.replicate (lit "Hi").length 61 ++ [10]
        ++ line_text (lit "use_branches : ") cnt1 (1 - 0) ++ [10]
        ++ line_text (lit "use_table    : ") cnt2 (3 - 2) ++ [10]
        ++ line_text (lit "use_switch   : ") cnt3 (5 - 4) ++ [10]
        ++ line_text (lit "use_crt      : ") cnt4 (7 - 6) ++ [10] ∧
      lines_of out =
        [lit "Hi", List.replicate (lit "Hi").length 61,
          line_text (lit "use_branches : ") cnt1 (1 - 0),
          line_text (lit "use_table    : ") cnt2 (3 - 2),
          line_text (lit "use_switch   : ") cnt3 (5 - 4),
          line_text (lit "use_crt      : ") cnt4 (7 - 6)] :=
  ⟨by decide, by decide,
    C7_run_test_six_lines true (fun k => (k : Int)) (lit "Hi") [32, 97, 10]
      (by decide) (Or.inr (by decide))⟩

/-- C8 fails where plain `char` is signed: for the `char` with byte 255 (value
-1) the index `static_cast<unsigned>(c)` is 4294967295, not less than 256, and
the read of the 256-entry table is out of range. -/
theorem C8_table_index_out_of_range :
    char_value true 255 = -1 ∧
    static_cast_unsigned (char_value true 255) = 4294967295 ∧
    make_whitespace_flags.length = 256 ∧
    ¬ (static_cast_unsigned (char_value true 255) < make_whitespace_flags.length) ∧
    impl_is_white_table true 255 = none := by
  refine ⟨by decide, by decide, make_whitespace_flags_length, ?_, ?_⟩
  · rw [make_whitespace_flags_length]; decide
  · rw [table_signed_eq]; decide

/-- C9: for every buffer whose characters all come from the 27 candidates, on
either kind of platform, the four strategies return the same count from
`time_count`, the number of characters in the set of the four, and `run_test`
prints that one count on each of its four strategy lines; every output of
`make_random_chars` and of `make_alternating`, whatever the RNG outcomes, is
such a buffer. -/
theorem C9_candidate_buffers_agree (char_signed : Bool) (clock : Nat → Int)
    (title sample : List CChar) (start stop : Int)
    (h : ∀ c ∈ sample, c ∈ random_candidates) :
    (time_count char_signed mode.use_table start stop sample =
        some (stop - start, spec_count sample) ∧
      time_count char_signed mode.use_branches start stop sample =
        some (stop - start, spec_count sample) ∧
      time_count char_signed mode.use_switch start stop sample =
        some (stop - start, spec_count sample) ∧
      time_count char_signed mode.use_crt start stop sample =
        some (stop - start, spec_count sample)) ∧
    run_test char_signed clock title sample =
      some (title ++ [10] ++ List.replicate title.length 61 ++ [10]
        ++ report_line (lit "use_branches : ") (spec_count sample) (clock 1 - clock 0)
        ++ report_line (lit "use_table    : ") (spec_count sample) (clock 3 - clock 2)
        ++ report_line (lit "use_switch   : ") (spec_count sample) (clock 5 - clock 4)
        ++ report_line (lit "use_crt      : ") (spec_count sample) (clock 7 - clock 6)) ∧
    (∀ (draw : Nat → Fin random_candidates.length) (length : Nat),
      ∀ c ∈ make_random_chars draw length, c ∈ random_candidates) ∧
    (∀ (draw : Nat → Fin alternating_candidates.length) (length : Nat),
      ∀ c ∈ make_alternating draw length, c ∈ random_candidates) := by
  have hidx : char_signed = false ∨ ∀ c ∈ sample, c.val < 128 :=
    Or.inr (fun c hc => (candidates_plain c (h c hc)).1)
  have hws : ∀ c ∈ sample, c ≠ 11 ∧ c ≠ 12 :=
    fun c hc => (candidates_plain c (h c hc)).2
  have hcrt : ∀ a b : Int, time_count char_signed mode.use_crt a b sample =
      some (b - a, spec_count sample) := by
    intro a b
    rw [time_count_crt, spec_count_eq_of_no_vt_ff sample hws]
  refine ⟨⟨time_count_table _ _ _ _ hidx, time_count_branches _ _ _ _,
    time_count_switch _ _ _ _, hcrt _ _⟩, ?_, make_random_chars_mem, make_alternating_mem⟩
  exact run_test_eq _ _ _ _ _ _ _ _ (time_count_branches _ _ _ _)
    (time_count_table _ _ _ _ hidx) (time_count_switch _ _ _ _) (hcrt _ _)

/-- C9 at the buffer `[,"a\n ]` on a signed-char platform: each strategy counts
the two whitespace characters. -/
theorem C9_candidate_buffers_agree_witness :
    (∀ c ∈ ([91, 44, 34, 97, 10, 32, 93] : List CChar), c ∈ random_candidates) ∧
    time_count true mode.use_table 10 25 [91, 44, 34, 97, 10, 32, 93] = some (25 - 10, 2) ∧
    time_count true mode.use_branches 10 25 [91, 44, 34, 97, 10, 32, 93] = some (25 - 10, 2) ∧
    time_count true mode.use_switch 10 25 [91, 44, 34, 97, 10, 32, 93] = some (25 - 10, 2) ∧
    time_count true mode.use_crt 10 25 [91, 44, 34, 97, 10, 32, 93] = some (25 - 10, 2) :=
  ⟨by decide,
    (C9_candidate_buffers_agree true (fun _ => 0) [] [91, 44, 34, 97, 10, 32, 93] 10 25
      (by decide)).1⟩

/-- C11: for every length `L`, whatever the RNG outcomes and on either kind of
platform, `time_count` with each of the four strategies returns the count
`L / 2` (rounded down) on `make_alternating(L)`; the count is the same for any
two streams of outcomes. -/
theorem C11_alternating_count_half (char_signed : Bool)
    (draw : Nat → Fin alternating_candidates.length) (L : Nat) (start stop : Int) :
    (time_count char_signed mode.use_table start stop (make_alternating draw L) =
        some (stop - start, L / 2) ∧
      time_count char_signed mode.use_branches start stop (make_alternating draw L) =
        some (stop - start, L / 2) ∧
      time_count char_signed mode.use_switch start stop (make_alternating draw L) =
        some (stop - start, L / 2) ∧
      time_count char_signed mode.use_crt start stop (make_alternating draw L) =
        some (stop - start, L / 2)) ∧
    ∀ (draw2 : Nat → Fin alternating_candidates.length) (Mode : mode),
      time_count char_signed Mode start stop (make_alternating draw2 L) =
        time_count char_signed Mode start stop (make_alternating draw L) := by
  have hall : ∀ (d : Nat → Fin alternating_candidates.length) (Mode : mode),
      time_count char_signed Mode start stop (make_alternating d L) =
        some (stop - start, L / 2) := by
    intro d Mode
    have hplain : ∀ c ∈ make_alternating d L, c.val < 128 ∧ c ≠ 11 ∧ c ≠ 12 :=
      fun c hc => candidates_plain c (make_alternating_mem d L c hc)
    have hcount := make_alternating_spec_count d L
    cases Mode with
    | use_table =>
      rw [time_count_table _ _ _ _ (Or.inr (fun c hc => (hplain c hc).1)), hcount]
    | use_branches => rw [time_count_branches, hcount]
    | use_switch => rw [time_count_switch, hcount]
    | use_crt =>
      rw [time_count_crt,
        spec_count_eq_of_no_vt_ff _ (fun c hc => (hplain c hc).2), hcount]
  refine ⟨⟨hall draw _, hall draw _, hall draw _, hall draw _⟩, ?_⟩
  intro draw2 Mode
  rw [hall draw2 Mode, hall draw Mode]

/-- C12: on either kind of platform and for every `char`, when the branch chain
returns true so does `std::isspace`; hence for every buffer and clock readings
both counting passes return, and the `use_crt` count is at least the
`use_branches` count. -/
theorem C12_branches_le_crt (char_signed : Bool) :
    (∀ c : CChar,
      impl_is_white char_signed mode.use_branches c = some true →
        impl_is_white char_signed mode.use_crt c = some true) ∧
    ∀ (start stop : Int) (sample : List CChar),
      ∃ cnt_branches cnt_crt : Nat,
        time_count char_signed mode.use_branches start stop sample =
          some (stop - start, cnt_branches) ∧
        time_count char_signed mode.use_crt start stop sample =
          some (stop - start, cnt_crt) ∧
        cnt_branches ≤ cnt_crt := by
  constructor
  · intro c h
    have hb : impl_is_white_branches char_signed c = true := by
      simpa [impl_is_white] using h
    simp [impl_is_white, branches_imp_crt char_signed c hb]
  · intro start stop sample
    refine ⟨_, _, time_count_branches _ _ _ _, time_count_crt _ _ _ _, ?_⟩
    unfold spec_count
    apply List.countP_mono_left
    intro c _ hc
    rw [← branches_eq_in_spec_set char_signed c] at hc
    rw [← crt_iff_six char_signed c]
    exact branches_imp_crt char_signed c hc

/-- C12 at the space character and at the buffer " \v" on a signed-char
platform: the branch chain counts 1, `std::isspace` counts 2. -/
theorem C12_branches_le_crt_witness :
    impl_is_white true mode.use_branches 32 = some true ∧
    impl_is_white true mode.use_crt 32 = some true ∧
    time_count true mode.use_branches 0 4 [32, 11] = some (4, 1) ∧
    time_count true mode.use_crt 0 4 [32, 11] = some (4, 2) :=
  ⟨by decide, (C12_branches_le_crt true).1 32 (by decide), by decide, by decide⟩

/-- C10, as stated, fails: for the length `SIZE_MAX` (2^64 - 1), with
`max_size()` equal to 2^62 - 1 as in libstdc++ on a 64-bit platform,
`result.reserve(length)` throws `std::length_error` and `make_alternating`
returns no string; the same holds for the length just above `max_size()`. -/
theorem C10_length_beyond_max_size_throws :
    SIZE_MAX = 2 ^ 64 - 1 ∧
    make_alternating_checked 4611686018427387903 4611686018427387903
        (fun _ => ⟨0, by decide⟩) SIZE_MAX =
      Except.error alloc_error.length_error ∧
    make_alternating_checked 4611686018427387903 4611686018427387903
        (fun _ => ⟨0, by decide⟩) 4611686018427387904 =
      Except.error alloc_error.length_error := by
  refine ⟨by decide, ?_, ?_⟩
  · rw [make_alternating_checked_eq, if_pos (by decide)]
  · rw [make_alternating_checked_eq, if_pos (by decide)]

/-- C10, amended: for every length `L` the string can hold (`L` at most
`max_size()` and at most the capacity the allocator can grant) and whatever the
RNG outcomes, `make_alternating(L)` returns a string of exactly `L` characters
whose position `i` holds 'a' (97) when `L - 1 - i` is even and one of newline,
tab, carriage return, space when `L - 1 - i` is odd; so neighbouring positions
never both hold 'a' nor both hold whitespace, and for `L >= 1` the last
character is 'a'. -/
theorem C10_make_alternating_checked_shape (max_size avail : Nat)
    (draw : Nat → Fin alternating_candidates.length) (L : Nat)
    (hmax : L ≤ max_size) (havail : L ≤ avail) :
    ∃ s : List CChar,
      make_alternating_checked max_size avail draw L = Except.ok s ∧
      s.length = L ∧
      (∀ i, i < L →
        ((L - 1 - i) % 2 = 0 → s[i]? = some 97) ∧
        ((L - 1 - i) % 2 = 1 →
          ∃ c : CChar, (c = 10 ∨ c = 9 ∨ c = 13 ∨ c = 32) ∧ s[i]? = some c)) ∧
      (∀ i, i + 1 < L → (s[i]? = some 97 ↔ s[i + 1]? ≠ some 97)) ∧
      (1 ≤ L → s.getLast? = some 97) := by
  refine ⟨make_alternating draw L, ?_, make_alternating_shape draw L⟩
  rw [make_alternating_checked_eq, if_neg (by omega), if_neg (by omega)]

/-- C10, amended, at the length 5 with the outcomes 2, 2, ... (carriage return):
the string returned is "a\ra\ra". -/
theorem C10_make_alternating_checked_shape_witness :
    (5 : Nat) ≤ 4611686018427387903 ∧ (5 : Nat) ≤ 1000 ∧
    make_alternating_checked 4611686018427387903 1000 (fun _ => ⟨2, by decide⟩) 5 =
      Except.ok [97, 13, 97, 13, 97] ∧
    ∃ s : List CChar,
      make_alternating_checked 4611686018427387903 1000 (fun _ => ⟨2, by decide⟩) 5 =
        Except.ok s ∧
      s.length = 5 ∧
      (∀ i, i < 5 →
        ((5 - 1 - i) % 2 = 0 → s[i]? = some 97) ∧
        ((5 - 1 - i) % 2 = 1 →
          ∃ c : CChar, (c = 10 ∨ c = 9 ∨ c = 13 ∨ c = 32) ∧ s[i]? = some c)) ∧
      (∀ i, i + 1 < 5 → (s[i]? = some 97 ↔ s[i + 1]? ≠ some 97)) ∧
      (1 ≤ 5 → s.getLast? = some 97) :=
  ⟨by decide, by decide, by rw [make_alternating_checked_eq]; rfl,
    C10_make_alternating_checked_shape 4611686018427387903 1000
      (fun _ => ⟨2, by decide⟩) 5 (by decide) (by decide)⟩

end IsWhite
